import Mathlib

/-
Verification of the word-counter log aggregator (src/main.rs).

The program streams a newline-delimited JSON log file: `read_line` yields each
line (terminator included) into a reused buffer, `serde_json::from_str::<LogLine>`
extracts the borrowed `type` field, and a `HashMap<String, ObjectStats>` keeps a
running (count, bytes) pair per category.  Below, the JSON grammar accepted by
serde_json (including the restriction that a borrowed `&str` field only
deserializes from a string literal without escape sequences) is embedded as a
fuel-based recursive-descent parser; the hash map is embedded as an association
list with unique keys; the reader is embedded as a list of read outcomes.
Byte counts use `String.utf8ByteSize`, matching the `usize` byte counts of
`read_line`.
-/

set_option maxHeartbeats 1000000

namespace WordCounter

/-- JSON values as serde_json classifies them while parsing a line.  The numeric
payload of a number is irrelevant to the program (numbers only ever occur in
ignored fields), so `num` carries none.  A string value records, besides its
decoded content, whether its literal contained any escape sequence: serde_json
refuses to deserialize a `&str` (the borrowed `object_type: &'a str` field of
`LogLine`, main.rs lines 77-81) from a string whose content is not a verbatim
slice of the input. -/
inductive JVal where
  | null : JVal
  | bool (b : Bool) : JVal
  | num : JVal
  | str (s : String) (esc : Bool) : JVal
  | arr (elems : List JVal) : JVal
  | obj (fields : List (String × JVal)) : JVal
deriving Inhabited

/-- JSON whitespace, as serde_json skips it: space, tab, line feed, carriage return. -/
def isWs (c : Char) : Bool :=
  c = ' ' || c = '\t' || c = '\n' || c = '\r'

/-- Drop leading JSON whitespace. -/
def skipWs : List Char → List Char
  | [] => []
  | c :: cs => if isWs c then skipWs cs else c :: cs

/-- Value of one hexadecimal digit. -/
def hexDigit (c : Char) : Option Nat :=
  if '0' ≤ c ∧ c ≤ '9' then some (c.toNat - '0'.toNat)
  else if 'a' ≤ c ∧ c ≤ 'f' then some (c.toNat - 'a'.toNat + 10)
  else if 'A' ≤ c ∧ c ≤ 'F' then some (c.toNat - 'A'.toNat + 10)
  else none

/-- Parse exactly four hexadecimal digits (the payload of a `\u` escape). -/
def parseHex4 : List Char → Option (Nat × List Char)
  | a :: b :: c :: d :: rest =>
    match hexDigit a, hexDigit b, hexDigit c, hexDigit d with
    | some x, some y, some z, some w => some (((x * 16 + y) * 16 + z) * 16 + w, rest)
    | _, _, _, _ => none
  | _ => none

/-- Parse the body of a JSON string after the opening quote, accumulating the
decoded content and whether any escape sequence occurred.  Raw control
characters are rejected; `\u` escapes handle surrogate pairs and reject lone
surrogates, as serde_json does in its default strict mode. -/
def parseStrAux : Nat → List Char → String → Bool → Option (String × Bool × List Char)
  | 0, _, _, _ => none
  | fuel + 1, cs, acc, esc =>
    match cs with
    | [] => none
    | '\"' :: rest => some (acc, esc, rest)
    | '\\' :: rest =>
      match rest with
      | '\"' :: r => parseStrAux fuel r (acc.push '\"') true
      | '\\' :: r => parseStrAux fuel r (acc.push '\\') true
      | '/' :: r => parseStrAux fuel r (acc.push '/') true
      | 'b' :: r => parseStrAux fuel r (acc.push (Char.ofNat 8)) true
      | 'f' :: r => parseStrAux fuel r (acc.push (Char.ofNat 12)) true
      | 'n' :: r => parseStrAux fuel r (acc.push '\n') true
      | 'r' :: r => parseStrAux fuel r (acc.push '\r') true
      | 't' :: r => parseStrAux fuel r (acc.push '\t') true
      | 'u' :: r =>
        match parseHex4 r with
        | some (h, r2) =>
          if 0xD800 ≤ h ∧ h ≤ 0xDBFF then
            match r2 with
            | '\\' :: 'u' :: r3 =>
              match parseHex4 r3 with
              | some (lo, r4) =>
                if 0xDC00 ≤ lo ∧ lo ≤ 0xDFFF then
                  parseStrAux fuel r4
                    (acc.push (Char.ofNat (0x10000 + (h - 0xD800) * 0x400 + (lo - 0xDC00)))) true
                else none
              | none => none
            | _ => none
          else if 0xDC00 ≤ h ∧ h ≤ 0xDFFF then none
          else parseStrAux fuel r2 (acc.push (Char.ofNat h)) true
        | none => none
      | _ => none
    | c :: rest => if c.toNat < 0x20 then none else parseStrAux fuel rest (acc.push c) esc

/-- Drop leading decimal digits. -/
def skipDigits : List Char → List Char
  | [] => []
  | c :: cs => if c.isDigit then skipDigits cs else c :: cs

/-- Parse the optional exponent part of a JSON number. -/
def parseExpPart (cs : List Char) : Option (List Char) :=
  match cs with
  | 'e' :: r =>
    match (match r with | '+' :: r2 => r2 | '-' :: r2 => r2 | _ => r) with
    | c :: r2 => if c.isDigit then some (skipDigits r2) else none
    | [] => none
  | 'E' :: r =>
    match (match r with | '+' :: r2 => r2 | '-' :: r2 => r2 | _ => r) with
    | c :: r2 => if c.isDigit then some (skipDigits r2) else none
    | [] => none
  | _ => some cs

/-- Parse the optional fraction part of a JSON number, then its exponent part. -/
def parseFracPart (cs : List Char) : Option (List Char) :=
  match cs with
  | '.' :: r =>
    match r with
    | c :: r2 => if c.isDigit then parseExpPart (skipDigits r2) else none
    | [] => none
  | _ => parseExpPart cs

/-- Parse a JSON number: optional minus, integer part (`0` or a nonzero-led
digit run), optional fraction, optional exponent.  Returns the remaining
input; the numeric value is irrelevant to the program. -/
def parseNumRest (cs : List Char) : Option (List Char) :=
  match (match cs with | '-' :: r => r | _ => cs) with
  | '0' :: r => parseFracPart r
  | c :: r => if c.isDigit then parseFracPart (skipDigits r) else none
  | [] => none

mutual

/-- Parse one JSON value, whitespace-prefixed, returning it and the remaining
input.  The fuel argument only bounds recursion depth; `parseJson` supplies
enough fuel for any input of the given length. -/
def parseVal : Nat → List Char → Option (JVal × List Char)
  | 0, _ => none
  | fuel + 1, cs =>
    match skipWs cs with
    | 'n' :: 'u' :: 'l' :: 'l' :: rest => some (JVal.null, rest)
    | 't' :: 'r' :: 'u' :: 'e' :: rest => some (JVal.bool true, rest)
    | 'f' :: 'a' :: 'l' :: 's' :: 'e' :: rest => some (JVal.bool false, rest)
    | '\"' :: rest =>
      match parseStrAux (rest.length + 1) rest "" false with
      | some (s, esc, r) => some (JVal.str s esc, r)
      | none => none
    | '[' :: rest =>
      match skipWs rest with
      | ']' :: r => some (JVal.arr [], r)
      | cs1 =>
        match parseArrItems fuel cs1 with
        | some (xs, r) => some (JVal.arr xs, r)
        | none => none
    | '\x7b' :: rest =>
      match skipWs rest with
      | '\x7d' :: r => some (JVal.obj [], r)
      | cs1 =>
        match parseObjItems fuel cs1 with
        | some (kvs, r) => some (JVal.obj kvs, r)
        | none => none
    | cs1 =>
      match parseNumRest cs1 with
      | some r => some (JVal.num, r)
      | none => none

/-- Parse the comma-separated items of a non-empty JSON array, including the
closing bracket. -/
def parseArrItems : Nat → List Char → Option (List JVal × List Char)
  | 0, _ => none
  | fuel + 1, cs =>
    match parseVal fuel cs with
    | some (v, r) =>
      match skipWs r with
      | ',' :: r2 =>
        match parseArrItems fuel r2 with
        | some (xs, r3) => some (v :: xs, r3)
        | none => none
      | ']' :: r2 => some ([v], r2)
      | _ => none
    | none => none

/-- Parse the members of a non-empty JSON object, including the closing brace.
Keys are decoded (serde_json matches field names after unescaping). -/
def parseObjItems : Nat → List Char → Option (List (String × JVal) × List Char)
  | 0, _ => none
  | fuel + 1, cs =>
    match skipWs cs with
    | '\"' :: rest =>
      match parseStrAux (rest.length + 1) rest "" false with
      | some (k, _, r) =>
        match skipWs r with
        | ':' :: r2 =>
          match parseVal fuel r2 with
          | some (v, r3) =>
            match skipWs r3 with
            | ',' :: r4 =>
              match parseObjItems fuel r4 with
              | some (kvs, r5) => some ((k, v) :: kvs, r5)
              | none => none
            | '\x7d' :: r4 => some ([(k, v)], r4)
            | _ => none
          | none => none
        | _ => none
      | none => none
    | _ => none

end

/-- Parse a complete string as one JSON value, allowing trailing whitespace
only — the behaviour of `serde_json::from_str`, which runs `end()` after the
value (main.rs line 46: the read line still carries its terminator, which
`from_str` accepts as trailing whitespace). -/
def parseJson (s : String) : Option JVal :=
  match parseVal (2 * s.length + 4) s.data with
  | some (v, rest) => if skipWs rest = [] then some v else none
  | none => none

/-- The outcome of `serde_json::from_str::<LogLine>(&buffer)` (main.rs line 46).
A JSON object must carry exactly one `type` member (serde's derive errors on a
duplicate field) whose value is a string literal without escape sequences,
because `object_type` is a borrowed `&'a str`.  In addition, serde_json's
`deserialize_struct` has a sequence arm: a JSON array is fed to the derive's
`visit_seq`, which reads the single field from element 0 and then `end_seq`
requires the closing bracket at once — so a one-element array of an escape-free
string also deserializes (an empty array fails with invalid length, a
non-string first element fails the `&str` visitor, and a second element fails
`end_seq`).  On success, the extracted string is returned; any failure is
collapsed to `none`, and the program skips the line. -/
def parseLogLine (s : String) : Option String :=
  match parseJson s with
  | some (JVal.obj fields) =>
    match fields.filter (fun kv => kv.1 = "type") with
    | [(_, JVal.str content false)] => some content
    | _ => none
  | some (JVal.arr [JVal.str content false]) => some content
  | _ => none

/-- Per-category counters (main.rs lines 139-143). -/
structure ObjectStats where
  count : Nat
  bytes : Nat
deriving Repr, DecidableEq, Inhabited

/-- `ObjectStats::new` (main.rs lines 145-152): a fresh category starts with
`count = 1` and the originating line's byte length. -/
def ObjectStats.new (bytes : Nat) : ObjectStats :=
  { count := 1, bytes := bytes }

/-- The `HashMap<String, ObjectStats>` of `LogStats`, embedded as an
association list with unique keys; iteration/row order is unspecified in the
source, so the list order carries no meaning. -/
abbrev CountMap := List (String × ObjectStats)

/-- Look up the stats stored under a category key. -/
def lookupStats : CountMap → String → Option ObjectStats
  | [], _ => none
  | (k, v) :: rest, c => if k = c then some v else lookupStats rest c

/-- One aggregation step (main.rs lines 48-63): `get_mut` then either increment
both counters in place, or insert an owned copy of the key with
`ObjectStats::new num_bytes`. -/
def updateMap : CountMap → String → Nat → CountMap
  | [], c, n => [(c, ObjectStats.new n)]
  | (k, v) :: rest, c, n =>
    if k = c then (k, { count := v.count + 1, bytes := v.bytes + n }) :: rest
    else (k, v) :: updateMap rest c n

/-- Processing of one read line (main.rs lines 44-66): deserialize, and either
aggregate under the extracted `type` with `num_bytes` = the line's byte length
(terminator included, as `read_line` counts it), or do nothing. -/
def processLine (m : CountMap) (line : String) : CountMap :=
  match parseLogLine line with
  | some ty => updateMap m ty line.utf8ByteSize
  | none => m

/-- The whole read-extract-aggregate loop over the file's lines, started from
the empty map that `LogStats::new` creates. -/
def processLines (lines : List String) : CountMap :=
  lines.foldl processLine []

/-- Aggregate state (main.rs lines 83-88) without the wall-clock `start`
instant, which has no shallow embedding. -/
structure LogStats where
  file_len_bytes : Nat
  count_map : CountMap
deriving Repr, DecidableEq

/-- One outcome of `reader.read_line(&mut buffer)`: either the next line
(empty at end of file) or a transport-level I/O failure. -/
inductive ReadResult where
  | line (s : String) : ReadResult
  | ioError : ReadResult
deriving Repr, DecidableEq

/-- The loop of `process_file` (main.rs lines 36-70) over a sequence of read
outcomes: an I/O failure propagates immediately via `?` with the
"Failed to read line" context, a zero-byte read breaks out as end of file, and
anything else is processed and the loop continues.  An exhausted outcome list
also stands for end of file. -/
def processReads : CountMap → List ReadResult → Except String CountMap
  | m, [] => Except.ok m
  | _, ReadResult.ioError :: _ => Except.error "Failed to read line"
  | m, ReadResult.line s :: rest =>
    if s.utf8ByteSize = 0 then Except.ok m
    else processReads (processLine m s) rest

/-- `process_file` (main.rs lines 19-73), for a file of `file_len_bytes` bytes
whose reader yields `reads`: on success the final `LogStats` is returned; an
I/O error mid-stream returns the error and discards the partial map.  The
terminal `stats.print()` does I/O only and is modelled separately. -/
def process_file (file_len_bytes : Nat) (reads : List ReadResult) : Except String LogStats :=
  match processReads [] reads with
  | Except.ok m => Except.ok { file_len_bytes := file_len_bytes, count_map := m }
  | Except.error e => Except.error e

/-- Sum of all `count` fields, as `LogStats::print` computes `lines_processed`
(main.rs line 116). -/
def sumCounts (m : CountMap) : Nat :=
  (m.map fun kv => kv.2.count).sum

/-- Sum of all `bytes` fields over the map. -/
def sumBytes (m : CountMap) : Nat :=
  (m.map fun kv => kv.2.bytes).sum

/-- Number of lines the extractor accepts. -/
def countParsed (lines : List String) : Nat :=
  (lines.filter fun l => (parseLogLine l).isSome).length

/-- Total byte size of a list of lines; when the lines are exactly the chunks
`read_line` yielded, this is the file's size (`file_len_bytes`, main.rs
line 24). -/
def totalBytes (lines : List String) : Nat :=
  (lines.map String.utf8ByteSize).sum

/-- Bytes recorded under a category, zero when the category is absent. -/
def bytesOf (m : CountMap) (c : String) : Nat :=
  match lookupStats m c with
  | some s => s.bytes
  | none => 0

/-- Byte lengths, terminators included, of the lines whose extracted `type`
is `c`, summed. -/
def contribBytes (lines : List String) (c : String) : Nat :=
  ((lines.filter fun l => parseLogLine l = some c).map String.utf8ByteSize).sum

/-- `file_size_mb` (main.rs line 114): truncating integer division of the byte
size by 1,048,576. -/
def file_size_mb (fileLen : Nat) : Nat :=
  fileLen / 1048576

/-- The throughput expression of main.rs line 115 over exact rationals:
`file_size_mb as f64 / elapsed-seconds`.  The `f64` division is exact whenever
the numerator is zero and the elapsed time positive, which is the regime the
claims touch. -/
def throughputQ (fileLen : Nat) (elapsed : ℚ) : ℚ :=
  (file_size_mb fileLen : ℚ) / elapsed

/-! Helper lemmas about the aggregation step and the fold over the lines. -/

theorem lookupStats_updateMap_self (m : CountMap) (c : String) (n : Nat) :
    lookupStats (updateMap m c n) c =
      some (match lookupStats m c with
            | some s => { count := s.count + 1, bytes := s.bytes + n }
            | none => ObjectStats.new n) := by
  induction m with
  | nil => simp [updateMap, lookupStats]
  | cons kv rest ih =>
    obtain ⟨k, v⟩ := kv
    by_cases hk : k = c
    · simp [updateMap, lookupStats, hk]
    · simp [updateMap, lookupStats, hk, ih]

theorem lookupStats_updateMap_ne (m : CountMap) (c : String) (n : Nat) (c' : String)
    (h : c' ≠ c) : lookupStats (updateMap m c n) c' = lookupStats m c' := by
  induction m with
  | nil => simp [updateMap, lookupStats, Ne.symm h]
  | cons kv rest ih =>
    obtain ⟨k, v⟩ := kv
    by_cases hk : k = c
    · subst hk
      simp [updateMap, lookupStats, Ne.symm h]
    · simp [updateMap, lookupStats, hk, ih]

theorem sumCounts_cons (kv : String × ObjectStats) (m : CountMap) :
    sumCounts (kv :: m) = kv.2.count + sumCounts m := by
  simp [sumCounts]

theorem sumBytes_cons (kv : String × ObjectStats) (m : CountMap) :
    sumBytes (kv :: m) = kv.2.bytes + sumBytes m := by
  simp [sumBytes]

theorem sumCounts_updateMap (m : CountMap) (c : String) (n : Nat) :
    sumCounts (updateMap m c n) = sumCounts m + 1 := by
  induction m with
  | nil => simp [updateMap, sumCounts, ObjectStats.new]
  | cons kv rest ih =>
    obtain ⟨k, v⟩ := kv
    by_cases hk : k = c
    · simp [updateMap, hk, sumCounts_cons]
      omega
    · simp [updateMap, hk, sumCounts_cons, ih]
      omega

theorem sumBytes_updateMap (m : CountMap) (c : String) (n : Nat) :
    sumBytes (updateMap m c n) = sumBytes m + n := by
  induction m with
  | nil => simp [updateMap, sumBytes, ObjectStats.new]
  | cons kv rest ih =>
    obtain ⟨k, v⟩ := kv
    by_cases hk : k = c
    · simp [updateMap, hk, sumBytes_cons]
      omega
    · simp [updateMap, hk, sumBytes_cons, ih]
      omega

theorem processLine_of_none {l : String} (m : CountMap) (h : parseLogLine l = none) :
    processLine m l = m := by
  simp [processLine, h]

theorem sumCounts_processLine (m : CountMap) (l : String) :
    sumCounts (processLine m l) =
      sumCounts m + (if (parseLogLine l).isSome then 1 else 0) := by
  unfold processLine
  cases h : parseLogLine l with
  | none => simp [h]
  | some ty => simp [h, sumCounts_updateMap]

theorem countParsed_cons (l : String) (ls : List String) :
    countParsed (l :: ls) =
      (if (parseLogLine l).isSome then 1 else 0) + countParsed ls := by
  by_cases h : (parseLogLine l).isSome
  · simp [countParsed, List.filter, h]
    omega
  · simp [countParsed, List.filter, h]

theorem sumCounts_foldl (lines : List String) :
    ∀ m : CountMap, sumCounts (lines.foldl processLine m) = sumCounts m + countParsed lines := by
  induction lines with
  | nil => intro m; simp [countParsed]
  | cons l ls ih =>
    intro m
    rw [List.foldl_cons, ih, sumCounts_processLine, countParsed_cons]
    omega

theorem bytesOf_updateMap_self (m : CountMap) (c : String) (n : Nat) :
    bytesOf (updateMap m c n) c = bytesOf m c + n := by
  unfold bytesOf
  rw [lookupStats_updateMap_self]
  cases lookupStats m c <;> simp [ObjectStats.new]

theorem bytesOf_updateMap_ne (m : CountMap) (c : String) (n : Nat) (c' : String)
    (h : c' ≠ c) : bytesOf (updateMap m c n) c' = bytesOf m c' := by
  unfold bytesOf
  rw [lookupStats_updateMap_ne m c n c' h]

theorem bytesOf_processLine (m : CountMap) (l : String) (c : String) :
    bytesOf (processLine m l) c =
      bytesOf m c + (if parseLogLine l = some c then l.utf8ByteSize else 0) := by
  unfold processLine
  cases h : parseLogLine l with
  | none => simp [h]
  | some ty =>
    by_cases hc : ty = c
    · subst hc
      simp [h, bytesOf_updateMap_self]
    · rw [bytesOf_updateMap_ne m ty l.utf8ByteSize c (fun he => hc he.symm)]
      simp [h, hc]

theorem contribBytes_cons (l : String) (ls : List String) (c : String) :
    contribBytes (l :: ls) c =
      (if parseLogLine l = some c then l.utf8ByteSize else 0) + contribBytes ls c := by
  by_cases h : parseLogLine l = some c <;> simp [contribBytes, List.filter, h]

theorem bytesOf_foldl (lines : List String) (c : String) :
    ∀ m : CountMap, bytesOf (lines.foldl processLine m) c = bytesOf m c + contribBytes lines c := by
  induction lines with
  | nil => intro m; simp [contribBytes]
  | cons l ls ih =>
    intro m
    rw [List.foldl_cons, ih, bytesOf_processLine, contribBytes_cons]
    omega

theorem count_pos_updateMap (m : CountMap) (c : String) (n : Nat)
    (h : ∀ kv ∈ m, 1 ≤ (kv.2 : ObjectStats).count) :
    ∀ kv ∈ updateMap m c n, 1 ≤ kv.2.count := by
  induction m with
  | nil =>
    intro kv hkv
    simp [updateMap] at hkv
    simp [hkv, ObjectStats.new]
  | cons kv0 rest ih =>
    obtain ⟨k, v⟩ := kv0
    intro kv hkv
    by_cases hk : k = c
    · simp [updateMap, hk] at hkv
      rcases hkv with hkv | hkv
      · simp [hkv]
      · exact h kv (List.mem_cons_of_mem _ hkv)
    · simp only [updateMap, hk, if_false, List.mem_cons] at hkv
      rcases hkv with hkv | hkv
      · exact hkv ▸ h (k, v) (List.mem_cons_self _ _)
      · exact ih (fun kv' hkv' => h kv' (List.mem_cons_of_mem _ hkv')) kv hkv

theorem count_pos_processLine (m : CountMap) (l : String)
    (h : ∀ kv ∈ m, 1 ≤ (kv.2 : ObjectStats).count) :
    ∀ kv ∈ processLine m l, 1 ≤ kv.2.count := by
  unfold processLine
  cases hp : parseLogLine l with
  | none => exact h
  | some ty => exact count_pos_updateMap m ty l.utf8ByteSize h

theorem count_pos_foldl (lines : List String) :
    ∀ m : CountMap, (∀ kv ∈ m, 1 ≤ (kv.2 : ObjectStats).count) →
      ∀ kv ∈ lines.foldl processLine m, 1 ≤ kv.2.count := by
  induction lines with
  | nil => intro m h; exact h
  | cons l ls ih =>
    intro m h
    rw [List.foldl_cons]
    exact ih (processLine m l) (count_pos_processLine m l h)

theorem sumBytes_processLine_le (m : CountMap) (l : String) :
    sumBytes (processLine m l) ≤ sumBytes m + l.utf8ByteSize := by
  unfold processLine
  cases h : parseLogLine l with
  | none => exact Nat.le_add_right _ _
  | some ty => rw [sumBytes_updateMap]

theorem sumBytes_foldl_le (lines : List String) :
    ∀ m : CountMap, sumBytes (lines.foldl processLine m) ≤ sumBytes m + totalBytes lines := by
  induction lines with
  | nil => intro m; simp [totalBytes]
  | cons l ls ih =>
    intro m
    rw [List.foldl_cons]
    calc sumBytes ((ls.foldl processLine (processLine m l)))
        ≤ sumBytes (processLine m l) + totalBytes ls := ih (processLine m l)
      _ ≤ sumBytes m + l.utf8ByteSize + totalBytes ls :=
          Nat.add_le_add_right (sumBytes_processLine_le m l) _
      _ = sumBytes m + totalBytes (l :: ls) := by
          simp [totalBytes]
          omega

theorem totalBytes_append (pre suf : List String) :
    totalBytes (pre ++ suf) = totalBytes pre + totalBytes suf := by
  simp [totalBytes]

theorem processReads_lines (reads : List String) :
    ∀ m : CountMap, (∀ l ∈ reads, l.utf8ByteSize ≠ 0) →
      processReads m (reads.map ReadResult.line) = Except.ok (reads.foldl processLine m) := by
  induction reads with
  | nil => intro m _; rfl
  | cons l ls ih =>
    intro m h
    have hl : l.utf8ByteSize ≠ 0 := h l (List.mem_cons_self _ _)
    simp only [List.map_cons, processReads, hl, if_false, List.foldl_cons]
    exact ih (processLine m l) (fun l' hl' => h l' (List.mem_cons_of_mem _ hl'))

theorem foldl_processLine_filter (lines : List String) :
    ∀ m : CountMap,
      lines.foldl processLine m =
        (lines.filter fun l => (parseLogLine l).isSome).foldl processLine m := by
  induction lines with
  | nil => intro m; rfl
  | cons l ls ih =>
    intro m
    by_cases h : (parseLogLine l).isSome
    · simp only [List.foldl_cons, List.filter, h, ih]
    · rw [Option.not_isSome_iff_eq_none] at h
      simp only [List.foldl_cons, List.filter, processLine_of_none m h, ih,
        h, Option.isSome_none]

theorem processReads_ioError (good : List String) (rest : List ReadResult) :
    ∀ m : CountMap, (∀ l ∈ good, l.utf8ByteSize ≠ 0) →
      processReads m (good.map ReadResult.line ++ ReadResult.ioError :: rest) =
        Except.error "Failed to read line" := by
  induction good with
  | nil => intro m _; rfl
  | cons l ls ih =>
    intro m h
    have hl : l.utf8ByteSize ≠ 0 := h l (List.mem_cons_self _ _)
    simp only [List.map_cons, List.cons_append, processReads, hl, if_false]
    exact ih (processLine m l) (fun l' hl' => h l' (List.mem_cons_of_mem _ hl'))

/-! The claims. -/

/-- C1: for the four-line input `\x7b"type":"A"\x7d`, `\x7b"type":"B","x":1\x7d`,
`not json`, `\x7b"type":"A"\x7d` (each newline-terminated), processing produces
exactly the mapping `A -> (count 2, bytes = len line1 + len line4 = 26)` and
`B -> (count 1, bytes = len line2 = 19)`, and the third line contributes to no
category. -/
theorem claim_C1_concrete_scenario :
    processLines ["\x7b\"type\":\"A\"\x7d\n", "\x7b\"type\":\"B\",\"x\":1\x7d\n",
        "not json\n", "\x7b\"type\":\"A\"\x7d\n"] =
      [("A", { count := 2, bytes := 26 }), ("B", { count := 1, bytes := 19 })]
    ∧ ("\x7b\"type\":\"A\"\x7d\n").utf8ByteSize + ("\x7b\"type\":\"A\"\x7d\n").utf8ByteSize = 26
    ∧ ("\x7b\"type\":\"B\",\"x\":1\x7d\n").utf8ByteSize = 19
    ∧ parseLogLine "not json\n" = none := by
  refine ⟨?_, ?_, ?_, ?_⟩ <;> rfl

/-- C2: one aggregation step for an extracted record (category `c`, line byte
length `n`): an existing entry has its count incremented by exactly 1 and its
bytes by exactly `n`; an absent category is inserted with count 1 and bytes
`n` (`ObjectStats::new`); every other entry of the mapping is unchanged. -/
theorem claim_C2_aggregator_step (m : CountMap) (c : String) (n : Nat) :
    (∀ s, lookupStats m c = some s →
        lookupStats (updateMap m c n) c = some { count := s.count + 1, bytes := s.bytes + n })
    ∧ (lookupStats m c = none →
        lookupStats (updateMap m c n) c = some { count := 1, bytes := n })
    ∧ (∀ c', c' ≠ c → lookupStats (updateMap m c n) c' = lookupStats m c') := by
  refine ⟨?_, ?_, ?_⟩
  · intro s hs
    rw [lookupStats_updateMap_self, hs]
  · intro hs
    rw [lookupStats_updateMap_self, hs]
    rfl
  · intro c' hc'
    exact lookupStats_updateMap_ne m c n c' hc'

/-- Witness for C2 at a concrete map, category and length. -/
theorem claim_C2_aggregator_step_witness :
    lookupStats (updateMap [("A", { count := 2, bytes := 5 })] "A" 7) "A" =
      some { count := 3, bytes := 12 }
    ∧ lookupStats (updateMap [] "A" 7) "A" = some { count := 1, bytes := 7 }
    ∧ lookupStats (updateMap [("A", { count := 2, bytes := 5 })] "A" 7) "B" =
      lookupStats [("A", { count := 2, bytes := 5 })] "B" :=
  ⟨(claim_C2_aggregator_step [("A", { count := 2, bytes := 5 })] "A" 7).1
      { count := 2, bytes := 5 } rfl,
   (claim_C2_aggregator_step [] "A" 7).2.1 rfl,
   (claim_C2_aggregator_step [("A", { count := 2, bytes := 5 })] "A" 7).2.2 "B" (by decide)⟩

/-- C3: after processing, the sum over all categories of `count` equals the
number of input lines successfully parsed as a JSON object with a `type`
field, and that number is at most the total number of lines. -/
theorem claim_C3_count_conservation (lines : List String) :
    sumCounts (processLines lines) = countParsed lines
    ∧ countParsed lines ≤ lines.length := by
  constructor
  · have h := sumCounts_foldl lines []
    rw [show sumCounts [] = 0 from rfl, Nat.zero_add] at h
    exact h
  · exact List.length_filter_le _ _

/-- C4: at every point of processing (after any leading portion `pre` of the
file's lines, with `suf` still to come), every category present in the map has
`count ≥ 1`, and the map's total bytes never exceed the file's size
(`totalBytes (pre ++ suf)` = `file_len_bytes` when the lines are the file's). -/
theorem claim_C4_invariant (pre suf : List String) :
    (∀ kv ∈ processLines pre, 1 ≤ (kv.2 : ObjectStats).count)
    ∧ sumBytes (processLines pre) ≤ totalBytes (pre ++ suf) := by
  constructor
  · exact count_pos_foldl pre [] (by intro kv hkv; cases hkv)
  · calc sumBytes (processLines pre)
        ≤ sumBytes [] + totalBytes pre := sumBytes_foldl_le pre []
      _ = totalBytes pre := by rw [show sumBytes [] = 0 from rfl, Nat.zero_add]
      _ ≤ totalBytes (pre ++ suf) := by
          rw [totalBytes_append]
          exact Nat.le_add_right _ _

/-- Witness for C4 after one processed line, with one line still unread. -/
theorem claim_C4_invariant_witness :
    1 ≤ (("A", ({ count := 1, bytes := 13 } : ObjectStats)).2).count
    ∧ sumBytes (processLines ["\x7b\"type\":\"A\"\x7d\n"]) ≤
      totalBytes (["\x7b\"type\":\"A\"\x7d\n"] ++ ["oops\n"]) :=
  ⟨(claim_C4_invariant ["\x7b\"type\":\"A\"\x7d\n"] ["oops\n"]).1
      ("A", { count := 1, bytes := 13 }) (by decide),
   (claim_C4_invariant ["\x7b\"type\":\"A\"\x7d\n"] ["oops\n"]).2⟩

/-- C5 fails on the code: the line `["A"]` is valid JSON with no `type` field
at all, yet the program does not skip it — serde_json's struct-from-sequence
path deserializes the one-element array into `LogLine` with `object_type "A"`,
so the counters change: category `A` gains count 1 and the line's 6 bytes. -/
theorem claim_C5_struct_from_seq :
    parseJson "[\"A\"]\n" = some (JVal.arr [JVal.str "A" false])
    ∧ parseLogLine "[\"A\"]\n" = some "A"
    ∧ processLines ["[\"A\"]\n"] = [("A", { count := 1, bytes := 6 })] := by
  refine ⟨?_, ?_, ?_⟩ <;> rfl

/-- C6: the bytes recorded under any category equal the exact sum of the byte
lengths (line terminators included) of the lines whose extracted `type` is
that category — each contributing line counted once. -/
theorem claim_C6_bytes_exact (lines : List String) (c : String) :
    bytesOf (processLines lines) c = contribBytes lines c := by
  have h := bytesOf_foldl lines c []
  rw [show bytesOf [] c = 0 from rfl, Nat.zero_add] at h
  exact h

/-- C7 fails on the code: main.rs line 115 divides unconditionally, with no
fallback branch that could report throughput as unavailable, so at elapsed
exactly zero the `f64` result is NaN rather than a marker (outside the exact
rational model).  The true half of the claim holds and is evaluated here: an
empty file (the first read returns 0 bytes) yields zero categories, zero
lines processed, and the throughput expression is defined — 0 for a nonzero
elapsed time — without any crash. -/
theorem claim_C7_empty_file_report :
    process_file 0 [ReadResult.line ""] = Except.ok ⟨0, []⟩
    ∧ sumCounts [] = 0
    ∧ throughputQ 0 1 = 0 := by
  refine ⟨rfl, rfl, ?_⟩
  norm_num [throughputQ, file_size_mb]

/-- C8: an I/O failure mid-stream aborts processing at once: `process_file`
returns the error, and the partial map accumulated over the preceding lines
is discarded (the error result carries no stats, so no report is produced). -/
theorem claim_C8_read_error_aborts (n : Nat) (good : List String) (rest : List ReadResult)
    (h : ∀ l ∈ good, l.utf8ByteSize ≠ 0) :
    process_file n (good.map ReadResult.line ++ ReadResult.ioError :: rest) =
      Except.error "Failed to read line" := by
  unfold process_file
  rw [processReads_ioError good rest [] h]

/-- Witness for C8: the reader fails after one good line. -/
theorem claim_C8_read_error_aborts_witness :
    process_file 13 (["\x7b\"type\":\"A\"\x7d\n"].map ReadResult.line ++
        ReadResult.ioError :: [ReadResult.line "x\n"]) =
      Except.error "Failed to read line" :=
  claim_C8_read_error_aborts 13 ["\x7b\"type\":\"A\"\x7d\n"] [ReadResult.line "x\n"] (by decide)

/-- C9: the line `\x7b"type":"A\nB"\x7d` (with a literal backslash-n escape in
the JSON text) is a valid JSON object whose `type` member is a string, yet
extraction fails and the line contributes to no category, because the
borrowed `&str` field only deserializes from an escape-free string literal. -/
theorem claim_C9_escaped_type_skipped :
    parseJson "\x7b\"type\":\"A\\nB\"\x7d\n" =
      some (JVal.obj [("type", JVal.str "A\nB" true)])
    ∧ parseLogLine "\x7b\"type\":\"A\\nB\"\x7d\n" = none
    ∧ processLines ["\x7b\"type\":\"A\\nB\"\x7d\n"] = [] := by
  refine ⟨?_, ?_, ?_⟩ <;> rfl

/-- C10: for any file smaller than 1,048,576 bytes, `file_size_mb` truncates to
0 whole megabytes, so the throughput figure `file_size_mb / elapsed` is 0 for
every nonzero elapsed time. -/
theorem claim_C10_small_file_zero_mb (n : Nat) (h : n < 1048576) :
    file_size_mb n = 0 ∧ ∀ e : ℚ, e ≠ 0 → throughputQ n e = 0 := by
  have h0 : file_size_mb n = 0 := Nat.div_eq_of_lt h
  refine ⟨h0, ?_⟩
  intro e _
  unfold throughputQ
  rw [h0]
  simp

/-- Witness for C10 at the largest sub-megabyte size and one second elapsed. -/
theorem claim_C10_small_file_zero_mb_witness :
    file_size_mb 1048575 = 0 ∧ throughputQ 1048575 1 = 0 :=
  ⟨(claim_C10_small_file_zero_mb 1048575 (by decide)).1,
   (claim_C10_small_file_zero_mb 1048575 (by decide)).2 1 one_ne_zero⟩

end WordCounter
